import Mathlib

/-
Verification of the captcha image-normalization pipeline: the Otsu-style
threshold selector, the ROI polarity detector, the binarizer and the digit
filter, embedded from src/server.js.
-/

namespace Captv2

/-- Histogram of a grayscale buffer: occurrence count of each intensity
value, matching the hist array built by otsuLike. -/
def hist (data : List ℕ) (v : ℕ) : ℕ := data.count v

/-- Loop state of otsuLike: running background weight wB, running
background intensity sum sumB, best between-class variance so far and the
threshold achieving it. -/
structure OtsuState where
  wB : ℕ
  sumB : ℕ
  varMax : ℚ
  threshold : ℕ
deriving Repr, DecidableEq

/-- The betweenVar quantity of one otsuLike iteration at cut point t, with
the updated weight wB and intensity sum sumB and the means mB and mF
inlined: wB * wF * (mB - mF) ^ 2. -/
def stepVar (total sum : ℕ) (h : ℕ → ℕ) (s : OtsuState) (t : ℕ) : ℚ :=
  let wB := s.wB + h t
  let wF := total - wB
  let sumB := s.sumB + t * h t
  (wB : ℚ) * (wF : ℚ) * ((sumB : ℚ) / (wB : ℚ) - ((sum : ℚ) - (sumB : ℚ)) / (wF : ℚ)) ^ 2

/-- One iteration of the otsuLike scan at cut point t. The first branch is
the continue on wB equal to zero, the second is the break once no
foreground pixels remain (every later iteration then lands in the same
branch, so modelling break as a no-op is exact). -/
def otsuStep (total sum : ℕ) (h : ℕ → ℕ) (s : OtsuState) (t : ℕ) : OtsuState :=
  if s.wB + h t = 0 then { s with wB := s.wB + h t }
  else if total - (s.wB + h t) = 0 then { s with wB := s.wB + h t }
  else if s.varMax < stepVar total sum h s t then
    ⟨s.wB + h t, s.sumB + t * h t, stepVar total sum h s t, t⟩
  else ⟨s.wB + h t, s.sumB + t * h t, s.varMax, s.threshold⟩

/-- The otsuLike function of src/server.js: histogram, total intensity sum,
then an ascending scan over all 256 candidate cut points keeping the first
cut with strictly larger between-class variance. -/
def otsuLike (data : List ℕ) : ℕ :=
  let h := hist data
  let total := data.length
  let sum := ∑ t in Finset.range 256, t * h t
  ((List.range 256).foldl (otsuStep total sum h) ⟨0, 0, 0, 0⟩).threshold

/-- Cumulative histogram weight of intensities at most t (the wB of the
scan at cut point t). -/
def cumW (data : List ℕ) (t : ℕ) : ℕ := ∑ k in Finset.range (t + 1), hist data k

/-- Cumulative intensity sum of intensities at most t (the sumB of the
scan at cut point t). -/
def cumS (data : List ℕ) (t : ℕ) : ℕ := ∑ k in Finset.range (t + 1), k * hist data k

/-- Total intensity sum over the histogram, the sum variable of otsuLike. -/
def totalSum (data : List ℕ) : ℕ := ∑ k in Finset.range 256, k * hist data k

/-- Between-class variance of the bipartition at cut point t:
wB * wF * (mB - mF) ^ 2 with weights taken as pixel counts, and zero when
one of the two classes is empty (the degenerate cuts the scan skips). -/
def betweenClassVar (data : List ℕ) (t : ℕ) : ℚ :=
  let total := data.length
  let wB := cumW data t
  let wF := total - wB
  if wB = 0 ∨ wF = 0 then 0
  else (wB : ℚ) * (wF : ℚ) *
    ((cumS data t : ℚ) / wB - (((totalSum data : ℚ) - (cumS data t : ℚ)) / wF)) ^ 2

/-- Left edge of the region of interest, Math.floor of width times 0.25. -/
def roiStartX (w : ℕ) : ℕ := w / 4

/-- Right edge of the region of interest, Math.floor of width times 0.75. -/
def roiEndX (w : ℕ) : ℕ := 3 * w / 4

/-- Top edge of the region of interest, Math.floor of height times 0.25. -/
def roiStartY (h : ℕ) : ℕ := h / 4

/-- Bottom edge of the region of interest, Math.floor of height times 0.75. -/
def roiEndY (h : ℕ) : ℕ := 3 * h / 4

/-- Sum of the samples inside the central region of interest, the roiSum
accumulated by the double loop over y then x with row-major indexing. -/
def roiSum (data : List ℕ) (w h : ℕ) : ℕ :=
  ∑ y in Finset.Ico (roiStartY h) (roiEndY h),
    ∑ x in Finset.Ico (roiStartX w) (roiEndX w), data.getD (y * w + x) 0

/-- Number of iterations of the region-of-interest double loop. -/
def roiCount (w h : ℕ) : ℕ :=
  (roiEndY h - roiStartY h) * (roiEndX w - roiStartX w)

/-- Mean intensity over the region of interest, with the neutral default
128 when the region is empty. -/
def avgROIGray (data : List ℕ) (w h : ℕ) : ℚ :=
  if 0 < roiCount w h then (roiSum data w h : ℚ) / (roiCount w h : ℚ) else 128

/-- The polarity decision: numbersAreLighter is true exactly when the mean
of the region of interest exceeds 128. -/
def numbersAreLighter (data : List ℕ) (w h : ℕ) : Bool :=
  decide ((128 : ℚ) < avgROIGray data w h)

/-- Modelled from the spec: the negate transform of the image library is
not in the repository; per the spec each sample v becomes 255 - v. -/
def negateBuf (data : List ℕ) : List ℕ := data.map (fun v => 255 - v)

/-- Modelled from the spec: the threshold transform of the image library
is not in the repository; per the spec the output sample is 255 when the
input sample strictly exceeds the threshold, else 0. -/
def thresholdBuf (t : ℕ) (data : List ℕ) : List ℕ :=
  data.map (fun v => if t < v then 255 else 0)

/-- The binarization branch of the solve-captcha route: when
numbersAreLighter, negate and then threshold, otherwise threshold
directly; in both branches the threshold value is otsuLike of the
original, non-negated buffer. -/
def binarize (data : List ℕ) (w h : ℕ) : List ℕ :=
  if numbersAreLighter data w h then thresholdBuf (otsuLike data) (negateBuf data)
  else thresholdBuf (otsuLike data) data

/-- The digit filter applied to the OCR text: every character that is
whitespace or not a decimal digit is removed. -/
def cleanedText (s : String) : String :=
  ⟨s.data.filter (fun c => !(c.isWhitespace || !c.isDigit))⟩

/-- Readiness state of the OCR worker: still running its asynchronous
startup, or ready. -/
inductive WorkerPhase
  | starting
  | ready
deriving Repr, DecidableEq

/-- First action the solve-captcha handler takes on a request. -/
inductive SolveStart
  | respond503
  | processRequest
deriving Repr, DecidableEq

/-- Awaiting tesseractReadyPromise: the promise resolves only after the
worker setup has stored the worker and set isTesseractWorkerReady to
true (on failure the process exits instead), so awaiting it always yields
the ready phase. -/
def awaitReadyPromise : WorkerPhase → WorkerPhase := fun _ => WorkerPhase.ready

/-- The readiness flag isTesseractWorkerReady as a function of the phase. -/
def readyFlag : WorkerPhase → Bool
  | WorkerPhase.starting => false
  | WorkerPhase.ready => true

/-- The solve-captcha guard of src/server.js: first await
tesseractReadyPromise, then return 503 if the flag is still false, else
start processing the request. -/
def serverJsGuard (p : WorkerPhase) : SolveStart :=
  let p' := awaitReadyPromise p
  if readyFlag p' then SolveStart.processRequest else SolveStart.respond503

/-- The solve-captcha guard of the Vercel variant: no await, the flag is
checked immediately. -/
def part000Guard (p : WorkerPhase) : SolveStart :=
  if readyFlag p then SolveStart.processRequest else SolveStart.respond503

/-- Invariant of the otsuLike scan after the cut points below n have been
processed: wB is the histogram weight below n, sumB the intensity sum
below n while pixels remain on the foreground side, varMax bounds every
between-class variance seen so far, and threshold is the first cut
attaining varMax. -/
def OtsuInv (data : List ℕ) (n : ℕ) (s : OtsuState) : Prop :=
  s.wB = ∑ k in Finset.range n, hist data k
  ∧ (s.wB < data.length → s.sumB = ∑ k in Finset.range n, k * hist data k)
  ∧ 0 ≤ s.varMax
  ∧ (∀ t, t < n → betweenClassVar data t ≤ s.varMax)
  ∧ ((s.threshold = 0 ∧ s.varMax = 0) ∨
      (s.threshold < n ∧ betweenClassVar data s.threshold = s.varMax))
  ∧ (∀ t, t < s.threshold → betweenClassVar data t < s.varMax)

lemma betweenClassVar_degenerate (data : List ℕ) (t : ℕ)
    (h : cumW data t = 0 ∨ data.length - cumW data t = 0) :
    betweenClassVar data t = 0 := by
  simp only [betweenClassVar]
  rw [if_pos h]

lemma betweenClassVar_nonneg (data : List ℕ) (t : ℕ) :
    0 ≤ betweenClassVar data t := by
  simp only [betweenClassVar]
  split
  · exact le_refl 0
  · positivity

lemma stepVar_eq_betweenClassVar (data : List ℕ) (n : ℕ) (s : OtsuState)
    (hwB : s.wB = ∑ k in Finset.range n, hist data k)
    (hsumB : s.sumB = ∑ k in Finset.range n, k * hist data k)
    (h0 : s.wB + hist data n ≠ 0) (hlt : s.wB + hist data n < data.length) :
    stepVar data.length (totalSum data) (hist data) s n = betweenClassVar data n := by
  have hcw : cumW data n = s.wB + hist data n := by
    rw [cumW, Finset.sum_range_succ, hwB]
  have hcs : cumS data n = s.sumB + n * hist data n := by
    rw [cumS, Finset.sum_range_succ, hsumB]
  have hne : ¬(cumW data n = 0 ∨ data.length - cumW data n = 0) := by
    rw [hcw]
    push_neg
    exact ⟨h0, by omega⟩
  simp only [stepVar, betweenClassVar]
  rw [if_neg hne, hcw, hcs]

lemma otsuStep_inv (data : List ℕ) (n : ℕ) (s : OtsuState) (hs : OtsuInv data n s) :
    OtsuInv data (n + 1) (otsuStep data.length (totalSum data) (hist data) s n) := by
  obtain ⟨hwB, hsumB, hvar0, hmax, hthr, hstrict⟩ := hs
  have hcw : cumW data n = s.wB + hist data n := by
    rw [cumW, Finset.sum_range_succ, hwB]
  have hdisj : ∀ s' : OtsuState, s' = { s with wB := s.wB + hist data n } →
      ((s'.threshold = 0 ∧ s'.varMax = 0) ∨
        (s'.threshold < n + 1 ∧ betweenClassVar data s'.threshold = s'.varMax)) := by
    intro s' hs'
    subst hs'
    rcases hthr with h | h
    · exact Or.inl h
    · exact Or.inr ⟨Nat.lt_succ_of_lt h.1, h.2⟩
  by_cases h1 : s.wB + hist data n = 0
  · have hstep : otsuStep data.length (totalSum data) (hist data) s n =
        { s with wB := s.wB + hist data n } := by
      simp only [otsuStep, if_pos h1]
    rw [hstep]
    refine ⟨?_, ?_, hvar0, ?_, hdisj _ rfl, hstrict⟩
    · show s.wB + hist data n = _
      rw [Finset.sum_range_succ, hwB]
    · intro hlt
      have hh : hist data n = 0 := by omega
      show s.sumB = _
      rw [Finset.sum_range_succ, hh, Nat.mul_zero, Nat.add_zero]
      exact hsumB (by omega)
    · intro t ht
      rcases Nat.lt_succ_iff_lt_or_eq.mp ht with h | h
      · exact hmax t h
      · subst h
        rw [betweenClassVar_degenerate data t (Or.inl (by omega))]
        exact hvar0
  · by_cases h2 : data.length - (s.wB + hist data n) = 0
    · have hstep : otsuStep data.length (totalSum data) (hist data) s n =
          { s with wB := s.wB + hist data n } := by
        simp only [otsuStep, if_neg h1, if_pos h2]
      rw [hstep]
      refine ⟨?_, ?_, hvar0, ?_, hdisj _ rfl, hstrict⟩
      · show s.wB + hist data n = _
        rw [Finset.sum_range_succ, hwB]
      · intro hlt
        have hlt' : s.wB + hist data n < data.length := hlt
        exact absurd h2 (by omega)
      · intro t ht
        rcases Nat.lt_succ_iff_lt_or_eq.mp ht with h | h
        · exact hmax t h
        · subst h
          rw [betweenClassVar_degenerate data t (Or.inr (by omega))]
          exact hvar0
    · have hlen : s.wB + hist data n < data.length := by omega
      have hsB : s.sumB = ∑ k in Finset.range n, k * hist data k :=
        hsumB (by omega)
      have hvarEq : stepVar data.length (totalSum data) (hist data) s n =
          betweenClassVar data n :=
        stepVar_eq_betweenClassVar data n s hwB hsB h1 hlen
      by_cases h3 : s.varMax < stepVar data.length (totalSum data) (hist data) s n
      · have hstep : otsuStep data.length (totalSum data) (hist data) s n =
            ⟨s.wB + hist data n, s.sumB + n * hist data n,
              stepVar data.length (totalSum data) (hist data) s n, n⟩ := by
          simp only [otsuStep, if_neg h1, if_neg h2, if_pos h3]
        rw [hstep]
        refine ⟨?_, ?_, le_of_lt (lt_of_le_of_lt hvar0 h3), ?_, ?_, ?_⟩
        · show s.wB + hist data n = _
          rw [Finset.sum_range_succ, hwB]
        · intro _
          show s.sumB + n * hist data n = _
          rw [Finset.sum_range_succ, hsB]
        · intro t ht
          rcases Nat.lt_succ_iff_lt_or_eq.mp ht with h | h
          · exact le_of_lt (lt_of_le_of_lt (hmax t h) h3)
          · subst h
            rw [hvarEq]
        · exact Or.inr ⟨Nat.lt_succ_self n, hvarEq.symm⟩
        · intro t ht
          exact lt_of_le_of_lt (hmax t ht) h3
      · have hstep : otsuStep data.length (totalSum data) (hist data) s n =
            ⟨s.wB + hist data n, s.sumB + n * hist data n, s.varMax, s.threshold⟩ := by
          simp only [otsuStep, if_neg h1, if_neg h2, if_neg h3]
        rw [hstep]
        refine ⟨?_, ?_, hvar0, ?_, ?_, hstrict⟩
        · show s.wB + hist data n = _
          rw [Finset.sum_range_succ, hwB]
        · intro _
          show s.sumB + n * hist data n = _
          rw [Finset.sum_range_succ, hsB]
        · intro t ht
          rcases Nat.lt_succ_iff_lt_or_eq.mp ht with h | h
          · exact hmax t h
          · subst h
            rw [← hvarEq]
            exact le_of_not_lt h3
        · rcases hthr with h | h
          · exact Or.inl h
          · exact Or.inr ⟨Nat.lt_succ_of_lt h.1, h.2⟩

lemma otsu_fold_inv (data : List ℕ) : ∀ n : ℕ,
    OtsuInv data n
      ((List.range n).foldl (otsuStep data.length (totalSum data) (hist data)) ⟨0, 0, 0, 0⟩)
  | 0 => by
    refine ⟨by simp, fun _ => by simp, le_refl 0, fun t ht => absurd ht (Nat.not_lt_zero t),
      Or.inl ⟨rfl, rfl⟩, fun t ht => absurd ht (Nat.not_lt_zero t)⟩
  | n + 1 => by
    rw [List.range_succ, List.foldl_append]
    simp only [List.foldl_cons, List.foldl_nil]
    exact otsuStep_inv data n _ (otsu_fold_inv data n)

lemma otsuLike_eq_fold (data : List ℕ) :
    otsuLike data =
      ((List.range 256).foldl (otsuStep data.length (totalSum data) (hist data))
        ⟨0, 0, 0, 0⟩).threshold := rfl

/-- Shared argmax facts about otsuLike: the result is at most 255, its
between-class variance dominates that of every cut point in range, and
every strictly smaller cut point has strictly smaller variance. -/
lemma otsu_argmax_spec (data : List ℕ) :
    otsuLike data ≤ 255
    ∧ (∀ t, t ≤ 255 → betweenClassVar data t ≤ betweenClassVar data (otsuLike data))
    ∧ (∀ t, t < otsuLike data →
        betweenClassVar data t < betweenClassVar data (otsuLike data)) := by
  obtain ⟨hwB, hsumB, hvar0, hmax, hthr, hstrict⟩ := otsu_fold_inv data 256
  rw [← otsuLike_eq_fold] at hthr hstrict
  rcases hthr with ⟨h0, hvM⟩ | ⟨hlt, hbcv⟩
  · refine ⟨by omega, fun t ht => ?_, fun t ht => ?_⟩
    · calc betweenClassVar data t ≤ _ := hmax t (by omega)
        _ = 0 := hvM
        _ ≤ betweenClassVar data (otsuLike data) := betweenClassVar_nonneg data _
    · rw [h0] at ht
      exact absurd ht (Nat.not_lt_zero t)
  · refine ⟨by omega, fun t ht => ?_, fun t ht => ?_⟩
    · rw [hbcv]
      exact hmax t (by omega)
    · rw [hbcv]
      exact hstrict t ht

lemma sum_count_eq (n : ℕ) (l : List ℕ) (h : ∀ v ∈ l, v < n) :
    ∑ k in Finset.range n, l.count k = l.length := by
  induction l with
  | nil => simp
  | cons a l ih =>
    have ha : a ∈ Finset.range n := Finset.mem_range.mpr (h a (List.mem_cons_self a l))
    have ih' := ih (fun v hv => h v (List.mem_cons_of_mem a hv))
    simp only [List.count_cons, List.length_cons]
    rw [Finset.sum_add_distrib, ih']
    simp [Finset.sum_ite_eq', ha, beq_iff_eq]

lemma cumW_eq_length (data : List ℕ) (t : ℕ) (h : ∀ v ∈ data, v ≤ t) :
    cumW data t = data.length :=
  sum_count_eq (t + 1) data (fun v hv => Nat.lt_succ_of_le (h v hv))

lemma cumW_eq_zero (data : List ℕ) (t : ℕ) (h : ∀ v ∈ data, t < v) :
    cumW data t = 0 := by
  apply Finset.sum_eq_zero
  intro k hk
  apply List.count_eq_zero_of_not_mem
  intro hm
  have h1 := h k hm
  have h2 := Finset.mem_range.mp hk
  omega

lemma betweenClassVar_replicate (n c t : ℕ) :
    betweenClassVar (List.replicate n c) t = 0 := by
  apply betweenClassVar_degenerate
  by_cases h : c ≤ t
  · right
    rw [cumW_eq_length _ _ (fun v hv => (List.eq_of_mem_replicate hv) ▸ h)]
    exact Nat.sub_self _
  · left
    exact cumW_eq_zero _ _ (fun v hv => by rw [List.eq_of_mem_replicate hv]; omega)

lemma cumW_at_min (data : List ℕ) (lo : ℕ) (hlb : ∀ v ∈ data, lo ≤ v) :
    cumW data lo = data.count lo := by
  rw [cumW, Finset.sum_range_succ]
  have h0 : ∑ k in Finset.range lo, hist data k = 0 := by
    apply Finset.sum_eq_zero
    intro k hk
    apply List.count_eq_zero_of_not_mem
    intro hm
    have h1 := hlb k hm
    have h2 := Finset.mem_range.mp hk
    omega
  rw [h0, Nat.zero_add]
  rfl

lemma cumS_at_min (data : List ℕ) (lo : ℕ) (hlb : ∀ v ∈ data, lo ≤ v) :
    cumS data lo = lo * data.count lo := by
  rw [cumS, Finset.sum_range_succ]
  have h0 : ∑ k in Finset.range lo, k * hist data k = 0 := by
    apply Finset.sum_eq_zero
    intro k hk
    have hc : hist data k = 0 := by
      apply List.count_eq_zero_of_not_mem
      intro hm
      have h1 := hlb k hm
      have h2 := Finset.mem_range.mp hk
      omega
    rw [hc, Nat.mul_zero]
  rw [h0, Nat.zero_add]
  rfl

lemma high_side_weight (data : List ℕ) (lo : ℕ) (hlo : lo ≤ 255)
    (h255 : ∀ v ∈ data, v ≤ 255) :
    data.length - cumW data lo = ∑ k in Finset.Ico (lo + 1) 256, hist data k := by
  have hsplit : cumW data lo + ∑ k in Finset.Ico (lo + 1) 256, hist data k
      = data.length := by
    rw [cumW, Finset.range_eq_Ico,
      Finset.sum_Ico_consecutive _ (Nat.zero_le _) (by omega), ← Finset.range_eq_Ico]
    exact sum_count_eq 256 data (fun v hv => by have := h255 v hv; omega)
  omega

lemma high_side_sum (data : List ℕ) (lo : ℕ) (hlo : lo ≤ 255) :
    cumS data lo + ∑ k in Finset.Ico (lo + 1) 256, k * hist data k = totalSum data := by
  rw [cumS, totalSum, Finset.range_eq_Ico]
  exact Finset.sum_Ico_consecutive _ (Nat.zero_le _) (by omega)

lemma high_side_bound (data : List ℕ) (lo : ℕ) :
    (lo + 1) * ∑ k in Finset.Ico (lo + 1) 256, hist data k
      ≤ ∑ k in Finset.Ico (lo + 1) 256, k * hist data k := by
  rw [Finset.mul_sum]
  apply Finset.sum_le_sum
  intro k hk
  exact Nat.mul_le_mul_right _ (Finset.mem_Ico.mp hk).1

lemma betweenClassVar_min_pos (data : List ℕ) (lo hi : ℕ)
    (hlo : lo ∈ data) (hhi : hi ∈ data) (hlb : ∀ v ∈ data, lo ≤ v)
    (h255 : ∀ v ∈ data, v ≤ 255) (hlt : lo < hi) :
    0 < betweenClassVar data lo := by
  have hhi255 : hi ≤ 255 := h255 hi hhi
  have hcW : cumW data lo = data.count lo := cumW_at_min data lo hlb
  have hcS : cumS data lo = lo * data.count lo := cumS_at_min data lo hlb
  have hcnt : 0 < data.count lo := List.count_pos_iff.mpr hlo
  have hcnthi : 0 < data.count hi := List.count_pos_iff.mpr hhi
  have hW := high_side_weight data lo (by omega) h255
  have hwF : 0 < data.length - cumW data lo := by
    have hmem : hi ∈ Finset.Ico (lo + 1) 256 := Finset.mem_Ico.mpr ⟨by omega, by omega⟩
    have hsingle : hist data hi ≤ ∑ k in Finset.Ico (lo + 1) 256, hist data k :=
      Finset.single_le_sum (fun i _ => Nat.zero_le _) hmem
    have hrfl : hist data hi = data.count hi := rfl
    omega
  have hne : ¬(cumW data lo = 0 ∨ data.length - cumW data lo = 0) := by
    push_neg
    constructor <;> omega
  have hle : cumS data lo ≤ totalSum data := by
    have := high_side_sum data lo (by omega)
    omega
  have hmB : (cumS data lo : ℚ) / (cumW data lo : ℚ) = lo := by
    rw [hcS, hcW]
    push_cast
    rw [mul_div_assoc, div_self (by exact_mod_cast hcnt.ne'), mul_one]
  have hmF : (lo : ℚ) + 1 ≤
      ((totalSum data : ℚ) - (cumS data lo : ℚ)) / ((data.length - cumW data lo : ℕ) : ℚ) := by
    rw [le_div_iff₀ (by exact_mod_cast hwF)]
    have h1 : (lo + 1) * (data.length - cumW data lo) ≤ totalSum data - cumS data lo := by
      rw [hW]
      have h2 := high_side_bound data lo
      have h3 := high_side_sum data lo (by omega)
      omega
    calc ((lo : ℚ) + 1) * ((data.length - cumW data lo : ℕ) : ℚ)
        = (((lo + 1) * (data.length - cumW data lo) : ℕ) : ℚ) := by push_cast; ring
      _ ≤ ((totalSum data - cumS data lo : ℕ) : ℚ) := by exact_mod_cast h1
      _ = (totalSum data : ℚ) - (cumS data lo : ℚ) := Nat.cast_sub hle
  simp only [betweenClassVar]
  rw [if_neg hne]
  apply mul_pos (mul_pos ?_ ?_) ?_
  · exact_mod_cast Nat.pos_of_ne_zero (by omega)
  · exact_mod_cast hwF
  · apply pow_two_pos_of_ne_zero
    rw [hmB]
    intro h
    have : ((totalSum data : ℚ) - (cumS data lo : ℚ)) /
        ((data.length - cumW data lo : ℕ) : ℚ) = lo := by linarith
    linarith

lemma getD_map_nat (l : List ℕ) (f : ℕ → ℕ) (i : ℕ) (hi : i < l.length) :
    (l.map f).getD i 0 = f (l.getD i 0) := by
  induction l generalizing i with
  | nil => simp at hi
  | cons a l ih =>
    cases i with
    | zero => rfl
    | succ n =>
      simp only [List.map_cons, List.getD_cons_succ]
      exact ih n (by simpa using hi)

lemma roi_index_lt (w h y x : ℕ) (hy : y ∈ Finset.Ico (roiStartY h) (roiEndY h))
    (hx : x ∈ Finset.Ico (roiStartX w) (roiEndX w)) :
    y * w + x < w * h := by
  obtain ⟨-, hy2⟩ := Finset.mem_Ico.mp hy
  obtain ⟨-, hx2⟩ := Finset.mem_Ico.mp hx
  have hyh : y < h := by
    simp only [roiEndY] at hy2
    omega
  have hxw : x < w := by
    simp only [roiEndX] at hx2
    omega
  calc y * w + x < y * w + w := by omega
    _ = (y + 1) * w := by ring
    _ ≤ h * w := Nat.mul_le_mul_right w hyh
    _ = w * h := Nat.mul_comm h w

lemma roiSum_negate_add (data : List ℕ) (w h : ℕ) (hlen : data.length = w * h)
    (hval : ∀ v ∈ data, v ≤ 255) :
    roiSum (negateBuf data) w h + roiSum data w h = 255 * roiCount w h := by
  simp only [roiSum, ← Finset.sum_add_distrib]
  have hterm : ∀ y ∈ Finset.Ico (roiStartY h) (roiEndY h),
      ∀ x ∈ Finset.Ico (roiStartX w) (roiEndX w),
      (negateBuf data).getD (y * w + x) 0 + data.getD (y * w + x) 0 = 255 := by
    intro y hy x hx
    have hidx : y * w + x < data.length := by
      rw [hlen]
      exact roi_index_lt w h y x hy hx
    have hmem : data.getD (y * w + x) 0 ∈ data := by
      rw [List.getD_eq_getElem _ _ hidx]
      exact List.getElem_mem hidx
    have hv := hval _ hmem
    rw [negateBuf, getD_map_nat data _ _ hidx]
    omega
  rw [Finset.sum_congr rfl (fun y hy => Finset.sum_congr rfl (fun x hx => hterm y hy x hx))]
  simp only [Finset.sum_const, Nat.card_Ico, smul_eq_mul, roiCount]
  ring

lemma avgROIGray_negate (data : List ℕ) (w h : ℕ) (hlen : data.length = w * h)
    (hval : ∀ v ∈ data, v ≤ 255) (hc : roiCount w h ≠ 0) :
    avgROIGray (negateBuf data) w h = 255 - avgROIGray data w h := by
  have hsum := roiSum_negate_add data w h hlen hval
  have hcpos : 0 < roiCount w h := Nat.pos_of_ne_zero hc
  simp only [avgROIGray, if_pos hcpos]
  have hcast : (roiSum (negateBuf data) w h : ℚ) =
      255 * (roiCount w h : ℚ) - (roiSum data w h : ℚ) := by
    have : ((roiSum (negateBuf data) w h + roiSum data w h : ℕ) : ℚ)
        = ((255 * roiCount w h : ℕ) : ℚ) := by rw [hsum]
    push_cast at this
    linarith
  rw [hcast]
  have hcne : (roiCount w h : ℚ) ≠ 0 := Nat.cast_ne_zero.mpr hc
  field_simp

lemma thresholdBuf_mem (t : ℕ) (buf : List ℕ) (v : ℕ) (hv : v ∈ thresholdBuf t buf) :
    v = 0 ∨ v = 255 := by
  simp only [thresholdBuf, List.mem_map] at hv
  obtain ⟨u, -, rfl⟩ := hv
  split
  · exact Or.inr rfl
  · exact Or.inl rfl

lemma roiCount_degenerate (w h : ℕ) (hwh : w < 2 ∨ h < 2) : roiCount w h = 0 := by
  rcases hwh with hw | hh
  · have hx : roiEndX w - roiStartX w = 0 := by
      simp only [roiEndX, roiStartX]
      omega
    simp only [roiCount, hx, Nat.mul_zero]
  · have hy : roiEndY h - roiStartY h = 0 := by
      simp only [roiEndY, roiStartY]
      omega
    simp only [roiCount, hy, Nat.zero_mul]

lemma filter_self_idem (p : Char → Bool) (l : List Char) :
    (l.filter p).filter p = l.filter p := by
  induction l with
  | nil => rfl
  | cons a l ih =>
    by_cases hp : p a
    · simp [List.filter_cons, hp, ih]
    · simp [List.filter_cons, hp, ih]

/-- C1: for every grayscale buffer, the threshold returned by otsuLike
maximizes the between-class variance wB * wF * (mB - mF) ^ 2 over all
candidate cut points t in [0, 255]: no cut point attains a strictly
greater between-class variance than the selected threshold. -/
theorem otsu_threshold_maximizes_variance (data : List ℕ)
    (hdata : ∀ v ∈ data, v ≤ 255) (t : ℕ) (ht : t ≤ 255) :
    betweenClassVar data t ≤ betweenClassVar data (otsuLike data) :=
  (otsu_argmax_spec data).2.1 t ht

/-- C4: when several cut points attain the same maximal between-class
variance, otsuLike returns the smallest of them: any cut point in range
whose variance equals that of the returned threshold is at least the
returned threshold. -/
theorem otsu_tie_break_smallest (data : List ℕ) (hdata : ∀ v ∈ data, v ≤ 255)
    (t : ℕ) (ht : t ≤ 255)
    (heq : betweenClassVar data t = betweenClassVar data (otsuLike data)) :
    otsuLike data ≤ t := by
  by_contra hcon
  push_neg at hcon
  exact absurd heq (ne_of_lt ((otsu_argmax_spec data).2.2 t hcon))

/-- C5: for every non-empty completely uniform grayscale buffer the
otsuLike selector returns threshold 0. -/
theorem otsu_uniform_zero (n c : ℕ) (hn : 0 < n) (hc : c ≤ 255) :
    otsuLike (List.replicate n c) = 0 := by
  by_contra hcon
  have h0 : 0 < otsuLike (List.replicate n c) := Nat.pos_of_ne_zero hcon
  have hlt := (otsu_argmax_spec (List.replicate n c)).2.2 0 h0
  rw [betweenClassVar_replicate, betweenClassVar_replicate] at hlt
  exact lt_irrefl 0 hlt

/-- C10: for every grayscale buffer containing at least two distinct
intensity values, with lo the smallest and hi the largest value present,
the otsuLike threshold satisfies lo ≤ t* < hi; in particular the
threshold is strictly below the maximal intensity present, so it never
classifies the whole buffer into a single class. -/
theorem otsu_threshold_between_min_max (data : List ℕ) (lo hi : ℕ)
    (hlo : lo ∈ data) (hhi : hi ∈ data) (hlb : ∀ v ∈ data, lo ≤ v)
    (hub : ∀ v ∈ data, v ≤ hi) (hne : lo ≠ hi) (h255 : ∀ v ∈ data, v ≤ 255) :
    lo ≤ otsuLike data ∧ otsuLike data < hi := by
  have hlt : lo < hi := lt_of_le_of_ne (hlb hi hhi) hne
  have hlo255 : lo ≤ 255 := h255 lo hlo
  have hpos : 0 < betweenClassVar data lo :=
    betweenClassVar_min_pos data lo hi hlo hhi hlb h255 hlt
  have hmax := (otsu_argmax_spec data).2.1 lo hlo255
  have hTpos : 0 < betweenClassVar data (otsuLike data) := lt_of_lt_of_le hpos hmax
  constructor
  · by_contra hcon
    push_neg at hcon
    have hzero : betweenClassVar data (otsuLike data) = 0 := by
      apply betweenClassVar_degenerate
      left
      exact cumW_eq_zero data _ (fun v hv => lt_of_lt_of_le hcon (hlb v hv))
    rw [hzero] at hTpos
    exact lt_irrefl 0 hTpos
  · by_contra hcon
    push_neg at hcon
    have hzero : betweenClassVar data (otsuLike data) = 0 := by
      apply betweenClassVar_degenerate
      right
      rw [cumW_eq_length data _ (fun v hv => le_trans (hub v hv) hcon)]
      exact Nat.sub_self _
    rw [hzero] at hTpos
    exact lt_irrefl 0 hTpos

/-- C2 (amended): when the central ROI mean exceeds 128 the binarized
output sets a pixel to 255 exactly when its inverted value 255 - v
strictly exceeds the Otsu threshold computed on the original,
non-negated buffer; bright pixels are not in general mapped to 255. -/
theorem binarize_lighter_pixel (data : List ℕ) (w h : ℕ)
    (hl : numbersAreLighter data w h = true) (i : ℕ) (hi : i < data.length) :
    (binarize data w h).getD i 0 =
      if otsuLike data < 255 - data.getD i 0 then 255 else 0 := by
  have hleng : i < (negateBuf data).length := by
    rw [negateBuf, List.length_map]
    exact hi
  simp only [binarize, hl, if_true]
  rw [thresholdBuf, getD_map_nat _ _ _ hleng, negateBuf, getD_map_nat _ _ _ hi]

/-- C3 (amended): for a buffer covering its w × h grid with samples at
most 255, a non-empty ROI and an ROI mean outside the interval
[127, 128], the polarity decision on the pixel-wise inversion is the
negation of the decision on the original buffer; the binarized outputs of
the two runs are, by contrast, not identical in general. -/
theorem polarity_decision_flips (data : List ℕ) (w h : ℕ)
    (hlen : data.length = w * h) (hval : ∀ v ∈ data, v ≤ 255)
    (hc : roiCount w h ≠ 0)
    (hm : avgROIGray data w h < 127 ∨ 128 < avgROIGray data w h) :
    numbersAreLighter (negateBuf data) w h = !numbersAreLighter data w h := by
  rw [numbersAreLighter, numbersAreLighter, avgROIGray_negate data w h hlen hval hc]
  rcases hm with hm | hm
  · have h1 : ¬((128 : ℚ) < avgROIGray data w h) := by linarith
    have h2 : (128 : ℚ) < 255 - avgROIGray data w h := by linarith
    simp [h1, h2]
  · have h2 : ¬((128 : ℚ) < 255 - avgROIGray data w h) := by linarith
    simp [hm, h2]

/-- C6 (amended): the ROI is empty exactly in the degenerate cases where
width or height is below 2 (not 4): then the Polarity Detector returns
the neutral default mean 128 and the decision numbersAreLighter is
false. -/
theorem roi_degenerate_below_two (data : List ℕ) (w h : ℕ) (hwh : w < 2 ∨ h < 2) :
    roiCount w h = 0 ∧ avgROIGray data w h = 128 ∧ numbersAreLighter data w h = false := by
  have h0 := roiCount_degenerate w h hwh
  have havg : avgROIGray data w h = 128 := by
    simp [avgROIGray, h0]
  refine ⟨h0, havg, ?_⟩
  rw [numbersAreLighter, havg]
  simp

/-- C7: behaviour of the readiness guard for a request arriving while the
OCR worker is still starting up: the guard of src/server.js first awaits
the readiness promise, so such a request is held until startup completes
and is then processed — it is not answered with the 503 unavailable
response — whereas the guard of the Vercel variant, which has no await,
answers 503 immediately. -/
theorem guard_during_startup :
    serverJsGuard WorkerPhase.starting = SolveStart.processRequest
    ∧ part000Guard WorkerPhase.starting = SolveStart.respond503 :=
  ⟨rfl, rfl⟩

/-- C8: every sample of the binarizer output is exactly 0 or exactly 255,
for every input buffer, with and without the polarity inversion branch. -/
theorem binarize_output_binary (data : List ℕ) (w h v : ℕ)
    (hv : v ∈ binarize data w h) : v = 0 ∨ v = 255 := by
  simp only [binarize] at hv
  split at hv
  · exact thresholdBuf_mem _ _ v hv
  · exact thresholdBuf_mem _ _ v hv

/-- C9: the digit filter is idempotent — filtering twice equals filtering
once — and its output consists only of decimal digit characters. -/
theorem cleanedText_idempotent (s : String) :
    cleanedText (cleanedText s) = cleanedText s
    ∧ (cleanedText s).data.all (fun c => c.isDigit) = true := by
  constructor
  · exact congrArg (fun l => (⟨l⟩ : String)) (filter_self_idem _ s.data)
  · simp only [List.all_eq_true]
    intro c hc
    have hc' : c ∈ s.data.filter (fun c => !(c.isWhitespace || !c.isDigit)) := hc
    have hp := List.of_mem_filter hc'
    simp only [Bool.not_or, Bool.and_eq_true, Bool.not_eq_true'] at hp
    simpa using hp.2

set_option maxRecDepth 4000000

section ConcreteWitnesses

attribute [local semireducible] Rat.mul Rat.inv Rat.add Rat.sub

/-- Witness for C1 at a concrete two-valued buffer. -/
theorem otsu_threshold_maximizes_variance_witness :
    betweenClassVar [20, 230] 7 ≤ betweenClassVar [20, 230] (otsuLike [20, 230]) :=
  otsu_threshold_maximizes_variance [20, 230] (by decide) 7 (by decide)

/-- Witness for C4: on a buffer whose between-class variance is tied
across cut points, the returned threshold is at most the tied cut 3. -/
theorem otsu_tie_break_smallest_witness : otsuLike [0, 255] ≤ 3 :=
  otsu_tie_break_smallest [0, 255] (by decide) 3 (by decide) (by decide)

/-- Witness for C5 at a concrete uniform buffer. -/
theorem otsu_uniform_zero_witness : otsuLike (List.replicate 3 7) = 0 :=
  otsu_uniform_zero 3 7 (by decide) (by decide)

/-- Witness for C10 at a concrete two-valued buffer. -/
theorem otsu_threshold_between_min_max_witness :
    100 ≤ otsuLike [100, 200] ∧ otsuLike [100, 200] < 200 :=
  otsu_threshold_between_min_max [100, 200] 100 200 (by decide) (by decide)
    (by decide) (by decide) (by decide) (by decide)

/-- Counterexample to C2 as stated: a 4 × 4 buffer whose ROI consists of
maximal-intensity pixels 255 on a 200 background has ROI mean above 128,
yet its binarized output is identically 0 — the bright pixels map to 0,
not 255, because the threshold 200 computed on the original buffer is
applied to the negated buffer whose values are 0 and 55. -/
theorem binarize_lighter_counterexample :
    numbersAreLighter
        [200, 200, 200, 200, 200, 255, 255, 200, 200, 255, 255, 200, 200, 200, 200, 200]
        4 4 = true
    ∧ binarize
        [200, 200, 200, 200, 200, 255, 255, 200, 200, 255, 255, 200, 200, 200, 200, 200]
        4 4 = List.replicate 16 0 := by
  constructor
  · decide
  · decide

/-- Witness for the amended C2 at pixel 0 of the same buffer. -/
theorem binarize_lighter_pixel_witness :
    (binarize
        [200, 200, 200, 200, 200, 255, 255, 200, 200, 255, 255, 200, 200, 200, 200, 200]
        4 4).getD 0 0 =
      if otsuLike
          [200, 200, 200, 200, 200, 255, 255, 200, 200, 255, 255, 200, 200, 200, 200, 200]
          < 255 - (List.getD
            [200, 200, 200, 200, 200, 255, 255, 200, 200, 255, 255, 200, 200, 200, 200, 200]
            0 0) then 255 else 0 :=
  binarize_lighter_pixel
    [200, 200, 200, 200, 200, 255, 255, 200, 200, 255, 255, 200, 200, 200, 200, 200]
    4 4 (by decide) 0 (by decide)

/-- Counterexample to C3 as stated: a 4 × 4 buffer with ROI value 254 on
background 0 and its pixel-wise inversion binarize to different outputs —
at index 5 the original run yields 255 while the inverted run yields 0 —
so inversion is not exactly compensated. -/
theorem polarity_compensation_counterexample :
    (binarize [0, 0, 0, 0, 0, 254, 254, 0, 0, 254, 254, 0, 0, 0, 0, 0] 4 4).getD 5 0 = 255
    ∧ (binarize (negateBuf [0, 0, 0, 0, 0, 254, 254, 0, 0, 254, 254, 0, 0, 0, 0, 0])
        4 4).getD 5 0 = 0 := by
  constructor
  · decide
  · decide

/-- Witness for the amended C3 at the same buffer, whose ROI mean 254 is
above 128. -/
theorem polarity_decision_flips_witness :
    numbersAreLighter (negateBuf [0, 0, 0, 0, 0, 254, 254, 0, 0, 254, 254, 0, 0, 0, 0, 0]) 4 4
      = !numbersAreLighter [0, 0, 0, 0, 0, 254, 254, 0, 0, 254, 254, 0, 0, 0, 0, 0] 4 4 :=
  polarity_decision_flips [0, 0, 0, 0, 0, 254, 254, 0, 0, 254, 254, 0, 0, 0, 0, 0] 4 4
    (by decide) (by decide) (by decide) (Or.inr (by decide))

/-- Counterexample to C6 as stated: width 2 is below 4, yet the ROI of a
2 × 4 raster is non-empty and an all-255 buffer yields the decision
numbersAreLighter = true rather than the claimed neutral outcome. -/
theorem roi_degenerate_counterexample :
    (2 : ℕ) < 4 ∧ roiCount 2 4 ≠ 0
    ∧ numbersAreLighter (List.replicate 8 255) 2 4 = true := by
  refine ⟨by decide, by decide, by decide⟩

/-- Witness for the amended C6 at a concrete 1 × 5 raster. -/
theorem roi_degenerate_below_two_witness :
    roiCount 1 5 = 0 ∧ avgROIGray [7] 1 5 = 128 ∧ numbersAreLighter [7] 1 5 = false :=
  roi_degenerate_below_two [7] 1 5 (Or.inl (by decide))

/-- Witness for C8: the first sample of a concrete binarized buffer is 0
or 255. -/
theorem binarize_output_binary_witness : (0 : ℕ) = 0 ∨ (0 : ℕ) = 255 :=
  binarize_output_binary [100, 200] 2 1 0 (by decide)

end ConcreteWitnesses

end Captv2
